import Mathlib

/- Shallow embedding of the payroll reporting engine of
src/send_payroll_report.py (function build_excel_report): detail sheet,
weekly payroll sheet and monthly summary sheet over a read-only snapshot
of staff members and shift records. Timestamps are minutes since
1970-01-01 00:00 UTC, dates are day numbers since 1970-01-01, and Python
floats are modelled as rationals. -/

/-- Cell value of a rendered sheet: a text cell or a numeric cell. -/
inductive Cell where
  | s (v : String)
  | q (v : ℚ)
  deriving DecidableEq, Repr

/-- Number of minutes in a day. -/
def minutesPerDay : ℤ := 1440

/-- Day number (days since 1970-01-01) of a timestamp in minutes. -/
def dayOfTs (t : ℤ) : ℤ := Int.fdiv t minutesPerDay

/-- Minute of the day of a timestamp. -/
def minuteOfDay (t : ℤ) : ℤ := t - minutesPerDay * dayOfTs t

/-- Conversion of a day number (days since 1970-01-01, proleptic Gregorian
calendar) to (year, month, day); the standard civil-from-days algorithm,
modelling the calendar arithmetic behind Python strftime. -/
def civilFromDays (z0 : ℤ) : ℤ × ℤ × ℤ :=
  let z := z0 + 719468
  let era := Int.fdiv z 146097
  let doe := z - era * 146097
  let yoe := Int.fdiv (doe - Int.fdiv doe 1460 + Int.fdiv doe 36524 - Int.fdiv doe 146096) 365
  let y := yoe + era * 400
  let doy := doe - (365 * yoe + Int.fdiv yoe 4 - Int.fdiv yoe 100)
  let mp := Int.fdiv (5 * doy + 2) 153
  let d := doy - Int.fdiv (153 * mp + 2) 5 + 1
  let m := if mp < 10 then mp + 3 else mp - 9
  (if m ≤ 2 then y + 1 else y, m, d)

/-- Zero-pad a nonnegative integer to the given width, as strftime does. -/
def padZ (w : ℕ) (n : ℤ) : String :=
  let s := toString n
  if 0 ≤ n ∧ s.length < w then String.mk (List.replicate (w - s.length) '0') ++ s else s

/-- Python strftime with format YYYY-MM-DD applied to a date given as a day
number. -/
def strftimeYMD (d : ℤ) : String :=
  let c := civilFromDays d
  padZ 4 c.1 ++ "-" ++ padZ 2 c.2.1 ++ "-" ++ padZ 2 c.2.2

/-- Python strftime with format YYYY-MM-DD HH:MM applied to a timestamp in
minutes. -/
def strftimeYMDHM (t : ℤ) : String :=
  let md := minuteOfDay t
  strftimeYMD (dayOfTs t) ++ " " ++ padZ 2 (Int.fdiv md 60) ++ ":" ++ padZ 2 (md % 60)

/-- Python strftime with format YYYY-MM: the month grouping key the monthly
summary uses. -/
def monthKey (t : ℤ) : String :=
  let c := civilFromDays (dayOfTs t)
  padZ 4 c.1 ++ "-" ++ padZ 2 c.2.1

/-- Nearest integer with ties to even, as Python round behaves on exact
values. -/
def roundHalfEven (x : ℚ) : ℤ :=
  let f := ⌊x⌋
  let r := x - (f : ℚ)
  if r < 1 / 2 then f
  else if 1 / 2 < r then f + 1
  else if f % 2 = 0 then f else f + 1

/-- Rounding to 2 decimal places, modelling round(x, 2). -/
def round2 (x : ℚ) : ℚ := (roundHalfEven (x * 100) : ℤ) / 100

/-- Staff member row (the Admin model): opaque id and display username. -/
structure Admin where
  id : ℕ
  username : String
  deriving DecidableEq, Repr

/-- Modelled from the spec: the Shift model is imported by
send_payroll_report.py from the application module but is not present in
the source tree. Per the spec, a ShiftRecord carries a staff reference, a
required clock_in timestamp, an optional clock_out timestamp (absent while
the shift is open) and a derived optional duration_hours attribute, which
the aggregator only reads. -/
structure Shift where
  admin_id : ℕ
  clock_in : ℤ
  clock_out : Option ℤ
  duration_hours : Option ℚ
  deriving DecidableEq, Repr

/-- Modelled from the spec: duration_hours is (clock_out - clock_in) in
hours rounded to 2 decimal places, and is absent when clock_out is absent. -/
def specDuration (ci : ℤ) (co : Option ℤ) : Option ℚ :=
  co.map (fun t => round2 (((t - ci : ℤ) : ℚ) / 60))

/-- Well-formed shift: the stored duration_hours agrees with the spec
derivation from the two timestamps. -/
def Shift.WF (s : Shift) : Prop :=
  s.duration_hours = specDuration s.clock_in s.clock_out

/-- Read-only snapshot of the database tables the report reads. -/
structure DB where
  admins : List Admin
  shifts : List Shift
  deriving DecidableEq, Repr

/-- Username of the staff member a shift refers to (the shift.admin
relationship). -/
def adminUsername (db : DB) (aid : ℕ) : String :=
  match db.admins.find? (fun a => a.id == aid) with
  | some a => a.username
  | none => ""

/-- Header row of the Shifts sheet. -/
def sheet1Header : List Cell :=
  [.s "Staff", .s "Clock In", .s "Clock Out", .s "Hours"]

/-- The query Shift.query.order_by(Shift.clock_in.desc()): all shifts
sorted by clock_in descending. -/
def sortedShiftsDesc (db : DB) : List Shift :=
  db.shifts.mergeSort (fun a b => decide (b.clock_in ≤ a.clock_in))

/-- One detail row of the Shifts sheet. The Hours cell tests the Python
truthiness of duration_hours, so both a missing and a zero duration render
as a dash. -/
def shiftDetailRow (db : DB) (sh : Shift) : List Cell :=
  [ Cell.s (adminUsername db sh.admin_id),
    Cell.s (strftimeYMDHM sh.clock_in),
    (match sh.clock_out with
      | some t => Cell.s (strftimeYMDHM t)
      | none => Cell.s "Active"),
    (match sh.duration_hours with
      | some d => if d = 0 then Cell.s "-" else Cell.q d
      | none => Cell.s "-") ]

/-- Rows of the Shifts sheet: header, then one row per shift, ordered by
clock_in descending. -/
def sheet1Rows (db : DB) : List (List Cell) :=
  sheet1Header :: (sortedShiftsDesc db).map (shiftDetailRow db)

/-- Week end date of weekly window w: today - 7*w days. -/
def weekEndOf (today : ℤ) (w : ℕ) : ℤ := today - 7 * (w : ℤ)

/-- Week start date of weekly window w: week end - 6 days. -/
def weekStartOf (today : ℤ) (w : ℕ) : ℤ := weekEndOf today w - 6

/-- The weekly shift filter of build_excel_report. The SQL comparison of
the datetime column clock_in with a bound date casts the date to the
timestamp at midnight of that day, so the effective bounds are
week_start 00:00 and week_end 00:00, both inclusive. -/
def inWeekWindow (staffId : ℕ) (weekStart weekEnd : ℤ) (sh : Shift) : Bool :=
  sh.admin_id == staffId
    && decide (weekStart * minutesPerDay ≤ sh.clock_in)
    && decide (sh.clock_in ≤ weekEnd * minutesPerDay)
    && sh.clock_out.isSome

/-- Shifts selected for one weekly window of one staff member. -/
def staffShiftsInWeek (db : DB) (today : ℤ) (staffId : ℕ) (w : ℕ) : List Shift :=
  db.shifts.filter (inWeekWindow staffId (weekStartOf today w) (weekEndOf today w))

/-- total_hours of one weekly window: sum of duration_hours over the
selected shifts, a missing duration counting as 0. -/
def weeklyTotal (db : DB) (today : ℤ) (staffId : ℕ) (w : ℕ) : ℚ :=
  (staffShiftsInWeek db today staffId w).foldl (fun acc s => acc + s.duration_hours.getD 0) 0

/-- One row of the Weekly Payroll sheet. -/
def weeklyRowFor (db : DB) (today : ℤ) (staff : Admin) (w : ℕ) : List Cell :=
  [ Cell.s staff.username,
    Cell.s (strftimeYMD (weekStartOf today w)),
    Cell.s (strftimeYMD (weekEndOf today w)),
    Cell.q (round2 (weeklyTotal db today staff.id w)),
    Cell.s (if weeklyTotal db today staff.id w > 40 then "YES" else "NO") ]

/-- The four weekly rows of one staff member, week 0 (ending today) first. -/
def weeklyRowsFor (db : DB) (today : ℤ) (staff : Admin) : List (List Cell) :=
  (List.range 4).map (weeklyRowFor db today staff)

/-- Header row of the Weekly Payroll sheet. -/
def sheet2Header : List Cell :=
  [.s "Staff", .s "Week Start", .s "Week End", .s "Total Hours", .s "Overtime?"]

/-- Rows of the Weekly Payroll sheet. -/
def sheet2Rows (db : DB) (today : ℤ) : List (List Cell) :=
  sheet2Header :: db.admins.flatMap (weeklyRowsFor db today)

/-- Completed shifts of one staff member, in snapshot order (the monthly
query has no order_by clause). -/
def completedShiftsOf (db : DB) (staffId : ℕ) : List Shift :=
  db.shifts.filter (fun s => s.admin_id == staffId && s.clock_out.isSome)

/-- The dict update monthly_totals[key] = monthly_totals.get(key, 0) + v,
with Python dict semantics: an existing key keeps its position, a new key
is appended. -/
def updAdd : List (String × ℚ) → String → ℚ → List (String × ℚ)
  | [], k, v => [(k, v)]
  | (k0, v0) :: rest, k, v =>
    if k0 = k then (k0, v0 + v) :: rest else (k0, v0) :: updAdd rest k v

/-- The monthly_totals dict of one staff member: completed shifts grouped
by the strftime YYYY-MM key of clock_in, summing duration_hours (a missing
duration counts as 0). -/
def monthlyTotals (db : DB) (staffId : ℕ) : List (String × ℚ) :=
  (completedShiftsOf db staffId).foldl
    (fun m s => updAdd m (monthKey s.clock_in) (s.duration_hours.getD 0)) []

/-- Rows of the Monthly Summary sheet for one staff member, in dict
insertion order. -/
def monthlyRowsFor (db : DB) (staff : Admin) : List (List Cell) :=
  (monthlyTotals db staff.id).map
    (fun kv => [Cell.s staff.username, Cell.s kv.1, Cell.q (round2 kv.2)])

/-- Header row of the Monthly Summary sheet. -/
def sheet3Header : List Cell := [.s "Staff", .s "Month", .s "Total Hours"]

/-- Rows of the Monthly Summary sheet. -/
def sheet3Rows (db : DB) : List (List Cell) :=
  sheet3Header :: db.admins.flatMap (monthlyRowsFor db)

/-- Header row of the flat CSV export. -/
def csvHeader : List Cell :=
  [.s "Staff", .s "Clock In", .s "Clock Out", .s "Hours"]

/-- Modelled from the spec: the flat CSV serialization of the detail
section is not present in the source tree. Per the spec it is the detail
table alone: header Staff, Clock In, Clock Out, Hours, then one row per
shift ordered by clock_in descending, timestamps formatted
YYYY-MM-DD HH:MM, an open shift rendering Clock Out as the literal Active
and Hours as a dash, and a completed shift rendering Hours as its
duration_hours. -/
def csvRows (db : DB) : List (List Cell) :=
  csvHeader :: (sortedShiftsDesc db).map (fun sh =>
    [ Cell.s (adminUsername db sh.admin_id),
      Cell.s (strftimeYMDHM sh.clock_in),
      (match sh.clock_out with
        | some t => Cell.s (strftimeYMDHM t)
        | none => Cell.s "Active"),
      (match sh.duration_hours with
        | some d => Cell.q d
        | none => Cell.s "-") ])

/-- Sample staff member alice (id 1). -/
def alice : Admin := ⟨1, "alice"⟩

/-- Sample staff member carol (id 3), who only ever clocks in. -/
def carol : Admin := ⟨3, "carol"⟩

/-- Sample staff member dave (id 4), with shifts in two months. -/
def dave : Admin := ⟨4, "dave"⟩

/-- Sample staff member eve (id 5), with a malformed shift. -/
def eve : Admin := ⟨5, "eve"⟩

/-- Completed 8 hour shift of alice, 2024-01-10 09:00 to 17:00 in minutes
since the epoch (day 19732 is 2024-01-10). -/
def aliceShift : Shift := ⟨1, 28414620, some 28415100, some 8⟩

/-- Open shift of carol, clock_in 2024-01-08 09:00 (day 19730), no
clock_out and hence no duration. -/
def carolShift : Shift := ⟨3, 28411740, none, none⟩

/-- Completed 8 hour shift of dave on 2024-01-08. -/
def daveJan : Shift := ⟨4, 28411740, some 28412220, some 8⟩

/-- Completed 7.5 hour shift of dave on 2024-02-07 (day 19760). -/
def daveFeb : Shift := ⟨4, 28454940, some 28455390, some (15/2)⟩

/-- Malformed shift of eve on 2024-01-08: clock_out 120 minutes before
clock_in, duration -2 hours as the spec derivation yields. -/
def negShift : Shift := ⟨5, 28411740, some 28411620, some (-2)⟩

/-- Completed zero length shift of alice: clock_out equal to clock_in, so
the spec derived duration is 0. -/
def zshift : Shift := ⟨1, 28414620, some 28414620, some 0⟩

/-- Snapshot with alice and her single completed shift. -/
def dbA : DB := ⟨[alice], [aliceShift]⟩

/-- Snapshot with carol and her single open shift. -/
def dbC : DB := ⟨[carol], [carolShift]⟩

/-- Snapshot with dave and his two completed shifts in different months. -/
def dbD : DB := ⟨[dave], [daveJan, daveFeb]⟩

/-- Snapshot with eve and her malformed shift. -/
def dbE : DB := ⟨[eve], [negShift]⟩

/-- Snapshot with alice and her zero length completed shift. -/
def dbZ : DB := ⟨[alice], [zshift]⟩

/-- Rounding preserves 0. -/
lemma round2_zero : round2 0 = 0 := by norm_num [round2, roundHalfEven]

/-- C1: for every snapshot, reference date and staff member, the Weekly
Payroll section emits exactly 4 rows for that staff member, row i being
the rendered row of window i (most recent week first): the week end of
window i+1 is exactly 7 days before the week end of window i, every week
start is exactly 6 days before its week end, and a window without
matching shifts is still emitted, with total 0 and no overtime flag. -/
theorem weekly_rollup_shape (db : DB) (today : ℤ) (staff : Admin) :
    (weeklyRowsFor db today staff).length = 4 ∧
    (∀ i : ℕ, i < 4 → (weeklyRowsFor db today staff).getD i [] = weeklyRowFor db today staff i) ∧
    (∀ i : ℕ, weekEndOf today (i + 1) = weekEndOf today i - 7) ∧
    (∀ i : ℕ, weekStartOf today i = weekEndOf today i - 6) ∧
    (∀ i : ℕ, staffShiftsInWeek db today staff.id i = [] →
      weeklyRowFor db today staff i =
        [Cell.s staff.username, Cell.s (strftimeYMD (weekStartOf today i)),
         Cell.s (strftimeYMD (weekEndOf today i)), Cell.q 0, Cell.s "NO"]) := by
  refine ⟨by simp [weeklyRowsFor], ?_, ?_, fun i => rfl, ?_⟩
  · intro i hi
    interval_cases i <;> rfl
  · intro i
    simp only [weekEndOf]
    push_cast
    ring
  · intro i h
    have ht : weeklyTotal db today staff.id i = 0 := by
      simp [weeklyTotal, h]
    have h40 : ¬ weeklyTotal db today staff.id i > 40 := by rw [ht]; norm_num
    simp [weeklyRowFor, ht, round2_zero, h40]

/-- C1 witness: the shape properties evaluated on a concrete snapshot. -/
theorem weekly_rollup_shape_witness :
    (weeklyRowsFor dbA 19732 alice).length = 4 ∧
    (weeklyRowsFor dbA 19732 alice).getD 1 [] = weeklyRowFor dbA 19732 alice 1 ∧
    weekEndOf 19732 2 = weekEndOf 19732 1 - 7 ∧
    weekStartOf 19732 0 = weekEndOf 19732 0 - 6 ∧
    weeklyRowFor dbA 19732 alice 3 =
      [Cell.s "alice", Cell.s (strftimeYMD (weekStartOf 19732 3)),
       Cell.s (strftimeYMD (weekEndOf 19732 3)), Cell.q 0, Cell.s "NO"] := by
  obtain ⟨h1, h2, h3, h4, h5⟩ := weekly_rollup_shape dbA 19732 alice
  have hw : staffShiftsInWeek dbA 19732 alice.id 3 = [] := by
    norm_num [staffShiftsInWeek, dbA, aliceShift, alice, inWeekWindow, weekStartOf,
      weekEndOf, minutesPerDay]
  exact ⟨h1, h2 1 (by norm_num), h3 1, h4 0, by simpa [alice] using h5 3 hw⟩

/-- C2: in every weekly row the Overtime cell is YES exactly when the
accumulated total of that window strictly exceeds 40 hours and NO exactly
otherwise; in particular a total of exactly 40 is reported NO. -/
theorem weekly_overtime_iff (db : DB) (today : ℤ) (staff : Admin) (w : ℕ) :
    ((weeklyRowFor db today staff w).getD 4 (Cell.s "") = Cell.s "YES" ↔
      40 < weeklyTotal db today staff.id w) ∧
    ((weeklyRowFor db today staff w).getD 4 (Cell.s "") = Cell.s "NO" ↔
      ¬ 40 < weeklyTotal db today staff.id w) := by
  by_cases h : 40 < weeklyTotal db today staff.id w <;>
    simp [weeklyRowFor, gt_iff_lt, h]

/-- C3: the code compares the datetime clock_in against the date valued
week bounds, which the database casts to midnight timestamps, so the
effective window of week w is [week_start 00:00, week_end 00:00]; a
completed 8 hour shift with clock_in 09:00 on the week end day itself
(reference date 2024-01-10, shift 2024-01-10 09:00 to 17:00) is excluded
from every weekly window, so all four weekly totals are 0, although the
shift is completed, its clock_in day is exactly the week end of window 0,
and its 8 hours do reach the monthly totals. -/
theorem weekly_window_drops_week_end_day :
    aliceShift.clock_out.isSome = true ∧
    dayOfTs aliceShift.clock_in = weekEndOf 19732 0 ∧
    (List.range 4).map (weeklyTotal dbA 19732 1) = [0, 0, 0, 0] ∧
    monthlyTotals dbA 1 = [(monthKey aliceShift.clock_in, 8)] := by
  refine ⟨rfl, by decide, ?_, rfl⟩
  norm_num [weeklyTotal, staffShiftsInWeek, inWeekWindow, weekStartOf, weekEndOf,
    minutesPerDay, dbA, aliceShift, List.range_succ]

/-- Helper: an open shift never passes the weekly window filter. -/
lemma inWeekWindow_open {sh : Shift} (h : sh.clock_out = none)
    (staffId : ℕ) (ws we : ℤ) : inWeekWindow staffId ws we sh = false := by
  simp [inWeekWindow, h]

/-- Helper: weekly totals ignore an open shift wherever it sits in the
snapshot. -/
lemma weeklyTotal_erase_open (admins : List Admin) (l1 l2 : List Shift) (sh : Shift)
    (h : sh.clock_out = none) (today : ℤ) (sid : ℕ) (w : ℕ) :
    weeklyTotal ⟨admins, l1 ++ sh :: l2⟩ today sid w =
      weeklyTotal ⟨admins, l1 ++ l2⟩ today sid w := by
  simp [weeklyTotal, staffShiftsInWeek, List.filter_append, List.filter_cons,
    inWeekWindow_open h]

/-- Helper: the completed shift selection ignores an open shift wherever
it sits in the snapshot. -/
lemma completedShiftsOf_erase_open (admins : List Admin) (l1 l2 : List Shift)
    (sh : Shift) (h : sh.clock_out = none) (sid : ℕ) :
    completedShiftsOf ⟨admins, l1 ++ sh :: l2⟩ sid =
      completedShiftsOf ⟨admins, l1 ++ l2⟩ sid := by
  simp [completedShiftsOf, List.filter_append, List.filter_cons, h]

/-- C5: open shifts contribute nothing: removing an open shift from the
snapshot changes no weekly row and no monthly row of any staff member;
and a staff member all of whose shifts are open gets total 0 in every
weekly window and an empty monthly section. -/
theorem open_shift_contributes_nothing (admins : List Admin) (today : ℤ) (staff : Admin) :
    (∀ l1 l2 : List Shift, ∀ sh : Shift, sh.clock_out = none →
      weeklyRowsFor ⟨admins, l1 ++ sh :: l2⟩ today staff =
        weeklyRowsFor ⟨admins, l1 ++ l2⟩ today staff ∧
      monthlyRowsFor ⟨admins, l1 ++ sh :: l2⟩ staff =
        monthlyRowsFor ⟨admins, l1 ++ l2⟩ staff) ∧
    (∀ db : DB, (∀ s ∈ db.shifts, s.admin_id = staff.id → s.clock_out = none) →
      (∀ w : ℕ, weeklyTotal db today staff.id w = 0) ∧
      monthlyRowsFor db staff = []) := by
  constructor
  · intro l1 l2 sh hopen
    constructor
    · have hrow : weeklyRowFor ⟨admins, l1 ++ sh :: l2⟩ today staff =
          weeklyRowFor ⟨admins, l1 ++ l2⟩ today staff := by
        funext w
        simp only [weeklyRowFor, weeklyTotal_erase_open admins l1 l2 sh hopen today]
      simp only [weeklyRowsFor, hrow]
    · simp only [monthlyRowsFor, monthlyTotals,
        completedShiftsOf_erase_open admins l1 l2 sh hopen]
  · intro db hall
    have hw : ∀ w : ℕ, staffShiftsInWeek db today staff.id w = [] := by
      intro w
      rw [staffShiftsInWeek, List.filter_eq_nil_iff]
      intro s hs
      by_cases hid : s.admin_id = staff.id
      · simp [inWeekWindow, hall s hs hid]
      · simp [inWeekWindow, hid]
    have hc : completedShiftsOf db staff.id = [] := by
      rw [completedShiftsOf, List.filter_eq_nil_iff]
      intro s hs
      by_cases hid : s.admin_id = staff.id
      · simp [hall s hs hid]
      · simp [hid]
    exact ⟨fun w => by simp [weeklyTotal, hw w],
      by simp [monthlyRowsFor, monthlyTotals, hc]⟩

/-- C5 witness at the carol snapshot. -/
theorem open_shift_contributes_nothing_witness :
    weeklyRowsFor ⟨[carol], [carolShift]⟩ 19732 carol =
      weeklyRowsFor ⟨[carol], []⟩ 19732 carol ∧
    weeklyTotal dbC 19732 carol.id 0 = 0 ∧
    monthlyRowsFor dbC carol = [] := by
  obtain ⟨h1, h2⟩ := open_shift_contributes_nothing [carol] 19732 carol
  have hcar : ∀ s ∈ dbC.shifts, s.admin_id = carol.id → s.clock_out = none := by
    intro s hs hid
    simp [dbC] at hs
    rw [hs]
    rfl
  obtain ⟨hw, hm⟩ := h2 dbC hcar
  refine ⟨?_, hw 0, hm⟩
  have h3 := (h1 [] [] carolShift rfl).1
  simpa using h3

/-- One shift snapshot: a single completed shift of the given staff
member with clock_in at midnight of the reference day and an arbitrary
stored duration. -/
def oneShiftDB (admins : List Admin) (sid : ℕ) (today : ℤ) (d : ℚ) : DB :=
  ⟨admins, [⟨sid, today * minutesPerDay, some (today * minutesPerDay + 480), some d⟩]⟩

/-- C9 amended: the aggregator validates nothing about the stored shifts:
whatever duration_hours holds, negative values included, flows into the
weekly and the monthly totals unchanged, and generation always returns
rows rather than signalling an error. -/
theorem aggregated_duration_unchecked (admins : List Admin) (staff : Admin)
    (today : ℤ) (d : ℚ) :
    weeklyTotal (oneShiftDB admins staff.id today d) today staff.id 0 = d ∧
    monthlyTotals (oneShiftDB admins staff.id today d) staff.id =
      [(monthKey (today * minutesPerDay), d)] := by
  have hcond : inWeekWindow staff.id (weekStartOf today 0) (weekEndOf today 0)
      ⟨staff.id, today * minutesPerDay, some (today * minutesPerDay + 480), some d⟩ = true := by
    simp [inWeekWindow, weekStartOf, weekEndOf, minutesPerDay]
  constructor
  · simp [weeklyTotal, staffShiftsInWeek, oneShiftDB, List.filter_cons, hcond]
  · simp [monthlyTotals, completedShiftsOf, oneShiftDB, updAdd]

/-- C9 counterexample: negShift is well formed for a malformed pair of
timestamps (clock_out 120 minutes before clock_in, duration -2 per the
spec derivation) and report generation does not reject it: the week 0
total of eve is -2, a negative number of hours, and the monthly totals
carry the same negative value. -/
theorem negative_hours_flow_into_totals :
    negShift.WF ∧ (∀ t, negShift.clock_out = some t → t < negShift.clock_in) ∧
    weeklyTotal dbE 19732 5 0 = -2 ∧ weeklyTotal dbE 19732 5 0 < 0 ∧
    monthlyTotals dbE 5 = [(monthKey negShift.clock_in, -2)] := by
  refine ⟨?_, ?_, ?_, ?_, rfl⟩
  · have hfr : Int.fract ((-200 : ℚ)) = 0 := by norm_num [Int.fract]
    norm_num [Shift.WF, specDuration, negShift, round2, roundHalfEven, hfr]
  · intro t ht
    simp [negShift] at ht ⊢
    omega
  · norm_num [weeklyTotal, staffShiftsInWeek, inWeekWindow, weekStartOf, weekEndOf,
      minutesPerDay, dbE, negShift]
  · norm_num [weeklyTotal, staffShiftsInWeek, inWeekWindow, weekStartOf, weekEndOf,
      minutesPerDay, dbE, negShift]

/-- Helper: a formatted timestamp always contains a colon, so it is never
the literal Active. -/
lemma strftimeYMDHM_ne_Active (t : ℤ) : strftimeYMDHM t ≠ "Active" := by
  intro h
  have hdata : (":" : String).data = [':'] := rfl
  have hc : ':' ∈ (strftimeYMDHM t).data := by
    show ':' ∈ (strftimeYMD (dayOfTs t) ++ " " ++ padZ 2 (Int.fdiv (minuteOfDay t) 60) ++ ":"
      ++ padZ 2 (minuteOfDay t % 60)).data
    simp [String.data_append, hdata]
  rw [h] at hc
  exact absurd hc (by decide)

/-- C6 counterexample: zshift is a well formed completed shift (clock_out
present and equal to clock_in, duration 0 per the spec derivation), yet
its Hours cell renders the dash, not the duration 0, because the code
tests the truthiness of duration_hours rather than the presence of
clock_out. -/
theorem detail_hours_not_duration_on_zero :
    zshift.WF ∧ zshift.clock_out = some 28414620 ∧ zshift.duration_hours = some 0 ∧
    (shiftDetailRow dbZ zshift).getD 3 (Cell.s "") = Cell.s "-" ∧
    (shiftDetailRow dbZ zshift).getD 3 (Cell.s "") ≠ Cell.q 0 := by
  refine ⟨?_, rfl, rfl, ?_, ?_⟩
  · norm_num [Shift.WF, specDuration, zshift, round2, roundHalfEven, Int.fract_zero]
  · simp [shiftDetailRow, zshift]
  · simp [shiftDetailRow, zshift]

/-- C6 amended: the detail section is the header followed by exactly one
row per shift ordered by clock_in descending (the sorted sequence is a
permutation of the snapshot and is pairwise descending); each row carries
the staff username, the clock_in formatted YYYY-MM-DD HH:MM, the
clock_out formatted likewise or the literal Active exactly when clock_out
is absent, and the Hours cell carries duration_hours except that a
missing or a zero duration renders as the dash. -/
theorem detail_rows_contract (db : DB) :
    sheet1Rows db = sheet1Header :: (sortedShiftsDesc db).map (shiftDetailRow db) ∧
    (sortedShiftsDesc db).Perm db.shifts ∧
    (sortedShiftsDesc db).Pairwise (fun a b => b.clock_in ≤ a.clock_in) ∧
    (∀ sh : Shift,
      (shiftDetailRow db sh).getD 0 (Cell.s "") = Cell.s (adminUsername db sh.admin_id) ∧
      (shiftDetailRow db sh).getD 1 (Cell.s "") = Cell.s (strftimeYMDHM sh.clock_in) ∧
      ((shiftDetailRow db sh).getD 2 (Cell.s "") = Cell.s "Active" ↔ sh.clock_out = none) ∧
      (∀ t, sh.clock_out = some t →
        (shiftDetailRow db sh).getD 2 (Cell.s "") = Cell.s (strftimeYMDHM t)) ∧
      ((shiftDetailRow db sh).getD 3 (Cell.s "") = Cell.s "-" ↔
        (sh.duration_hours = none ∨ sh.duration_hours = some 0)) ∧
      (∀ d, sh.duration_hours = some d → d ≠ 0 →
        (shiftDetailRow db sh).getD 3 (Cell.s "") = Cell.q d)) := by
  refine ⟨rfl, List.mergeSort_perm _ _, ?_, ?_⟩
  · have hs := @List.sorted_mergeSort Shift
      (fun a b : Shift => decide (b.clock_in ≤ a.clock_in))
      (fun a b c hab hbc => by
        simp only [decide_eq_true_eq] at *
        exact le_trans hbc hab)
      (fun a b => by
        rcases le_total a.clock_in b.clock_in with h | h <;> simp [h])
      db.shifts
    exact hs.imp (fun h => of_decide_eq_true h)
  · intro sh
    refine ⟨rfl, rfl, ?_, ?_, ?_, ?_⟩
    · cases ho : sh.clock_out with
      | none => simp [shiftDetailRow, ho]
      | some t =>
        simp only [shiftDetailRow, ho, List.getD]
        constructor
        · intro hEq
          exact absurd (by injection hEq) (strftimeYMDHM_ne_Active t)
        · intro hEq
          cases hEq
    · intro t ht
      simp [shiftDetailRow, ht]
    · cases hd : sh.duration_hours with
      | none => simp [shiftDetailRow, hd]
      | some d =>
        by_cases hz : d = 0
        · subst hz
          simp [shiftDetailRow, hd]
        · simp [shiftDetailRow, hd, hz]
    · intro d hd hz
      simp [shiftDetailRow, hd, hz]

/-- C6 witness: the amended contract evaluated on the alice snapshot. -/
theorem detail_rows_contract_witness :
    (sortedShiftsDesc dbA).Perm dbA.shifts ∧
    (shiftDetailRow dbA aliceShift).getD 3 (Cell.s "") = Cell.q 8 ∧
    ((shiftDetailRow dbA aliceShift).getD 2 (Cell.s "") = Cell.s "Active" ↔
      aliceShift.clock_out = none) := by
  obtain ⟨hEq, hPerm, hSort, hCells⟩ := detail_rows_contract dbA
  exact ⟨hPerm, (hCells aliceShift).2.2.2.2.2 8 rfl (by norm_num),
    (hCells aliceShift).2.2.1⟩

/-- C8 counterexample: at a snapshot holding a well formed completed zero
length shift the spec described CSV renders Hours as the number 0 while
the workbook Shifts sheet renders the dash, so the two serializations
are not identical. -/
theorem csv_and_workbook_detail_diverge : csvRows dbZ ≠ sheet1Rows dbZ := by
  have hs : sortedShiftsDesc dbZ = [zshift] :=
    List.perm_singleton.mp (List.mergeSort_perm _ _)
  intro h
  rw [csvRows, sheet1Rows, hs] at h
  simp [shiftDetailRow, zshift, csvHeader, sheet1Header] at h

/-- C8 amended: the CSV serialization and the workbook Shifts sheet are
identical (same header, same rows, same order) whenever no completed
shift carries duration_hours exactly 0; they differ only in the Hours
cell of zero duration completed shifts, which the workbook collapses to
the dash. -/
theorem csv_matches_workbook_detail (db : DB)
    (h : ∀ s ∈ db.shifts, s.duration_hours ≠ some 0) :
    csvRows db = sheet1Rows db := by
  rw [csvRows, sheet1Rows]
  have hhdr : csvHeader = sheet1Header := rfl
  rw [hhdr]
  refine congrArg _ (List.map_congr_left ?_)
  intro sh hsh
  have hmem : sh ∈ db.shifts := (List.mergeSort_perm _ _).mem_iff.mp hsh
  have hd := h sh hmem
  cases hdur : sh.duration_hours with
  | none => simp [shiftDetailRow, hdur]
  | some d =>
    have hz : d ≠ 0 := by
      intro hd0
      rw [hd0] at hdur
      exact hd hdur
    simp [shiftDetailRow, hdur, hz]

/-- C8 witness: equality of the two serializations on the alice
snapshot. -/
theorem csv_matches_workbook_detail_witness : csvRows dbA = sheet1Rows dbA := by
  apply csv_matches_workbook_detail
  intro s hs
  simp [dbA] at hs
  rw [hs, aliceShift]
  simp

/-- Sum of the values of an association list. -/
def valsSum (m : List (String × ℚ)) : ℚ := (m.map Prod.snd).sum

/-- Helper: updAdd adds its value to the total of the dict values. -/
lemma valsSum_updAdd (m : List (String × ℚ)) (k : String) (v : ℚ) :
    valsSum (updAdd m k v) = valsSum m + v := by
  induction m with
  | nil => simp [updAdd, valsSum]
  | cons kv rest ih =>
    obtain ⟨k0, v0⟩ := kv
    by_cases h : k0 = k
    · simp [updAdd, h, valsSum]
      ring
    · simp only [updAdd, if_neg h]
      simp only [valsSum, List.map_cons, List.sum_cons] at ih ⊢
      rw [ih]
      ring

/-- Helper: folding the monthly dict update over a shift list adds all the
durations to the total of the values. -/
lemma valsSum_monthFold (l : List Shift) (init : List (String × ℚ)) :
    valsSum (l.foldl (fun m s => updAdd m (monthKey s.clock_in) (s.duration_hours.getD 0)) init) =
      valsSum init + (l.map fun s => s.duration_hours.getD 0).sum := by
  induction l generalizing init with
  | nil => simp
  | cons s rest ih =>
    simp only [List.foldl_cons, List.map_cons, List.sum_cons]
    rw [ih, valsSum_updAdd]
    ring

/-- Rationals that are an integer number of hundredths; the spec
derivation of duration_hours always produces such values. -/
def Cent (q : ℚ) : Prop := ∃ k : ℤ, q = k / 100

/-- Helper: 0 is a number of hundredths. -/
lemma Cent.zero : Cent 0 := ⟨0, by norm_num⟩

/-- Helper: hundredths are closed under addition. -/
lemma Cent.add {a b : ℚ} (ha : Cent a) (hb : Cent b) : Cent (a + b) := by
  obtain ⟨m, rfl⟩ := ha
  obtain ⟨n, rfl⟩ := hb
  exact ⟨m + n, by push_cast; ring⟩

/-- Helper: rounding to 2 decimals is the identity on hundredths. -/
lemma round2_cent {q : ℚ} (h : Cent q) : round2 q = q := by
  obtain ⟨k, rfl⟩ := h
  have h100 : ((k : ℚ) / 100) * 100 = (k : ℚ) := by field_simp
  norm_num [round2, roundHalfEven, h100, Int.fract_intCast, Int.floor_intCast]

/-- Helper: all dict values stay hundredths under updAdd. -/
lemma cent_updAdd (m : List (String × ℚ)) (k : String) (v : ℚ)
    (hm : ∀ p ∈ m, Cent p.2) (hv : Cent v) :
    ∀ p ∈ updAdd m k v, Cent p.2 := by
  induction m with
  | nil =>
    intro p hp
    simp [updAdd] at hp
    rw [hp]
    exact hv
  | cons kv rest ih =>
    intro p hp
    obtain ⟨k0, v0⟩ := kv
    by_cases h : k0 = k
    · simp only [updAdd, if_pos h] at hp
      rcases List.mem_cons.mp hp with rfl | hp2
      · exact (hm (k0, v0) (by simp)).add hv
      · exact hm p (List.mem_cons_of_mem _ hp2)
    · simp only [updAdd, if_neg h] at hp
      rcases List.mem_cons.mp hp with rfl | hp2
      · exact hm (k0, v0) (by simp)
      · exact ih (fun q hq => hm q (List.mem_cons_of_mem _ hq)) p hp2

/-- Helper: all dict values stay hundredths when folding hundredth
durations. -/
lemma cent_monthFold (l : List Shift) (init : List (String × ℚ))
    (hinit : ∀ p ∈ init, Cent p.2)
    (hl : ∀ s ∈ l, Cent (s.duration_hours.getD 0)) :
    ∀ p ∈ l.foldl (fun m s => updAdd m (monthKey s.clock_in) (s.duration_hours.getD 0)) init,
      Cent p.2 := by
  induction l generalizing init with
  | nil => simpa using hinit
  | cons s rest ih =>
    simp only [List.foldl_cons]
    exact ih _
      (cent_updAdd init _ _ hinit (hl s (by simp)))
      (fun s2 hs2 => hl s2 (List.mem_cons_of_mem _ hs2))

/-- Helper: summing rounded dict values equals summing the values when
every value is a number of hundredths. -/
lemma sum_round2_of_cent (m : List (String × ℚ)) (h : ∀ p ∈ m, Cent p.2) :
    (m.map fun kv => round2 kv.2).sum = valsSum m := by
  induction m with
  | nil => simp [valsSum]
  | cons kv rest ih =>
    simp only [valsSum, List.map_cons, List.sum_cons] at ih ⊢
    rw [round2_cent (h kv (by simp)), ih (fun p hp => h p (List.mem_cons_of_mem _ hp))]

/-- Numeric content of a cell; text cells count 0. -/
def cellVal : Cell → ℚ
  | .q v => v
  | .s _ => 0

/-- C4: conservation: assuming every stored duration is an integer number
of hundredths of an hour (which the spec derivation of duration_hours
guarantees), the Total Hours values of the emitted monthly rows of a
staff member add up to exactly the sum of duration_hours over all their
completed shifts: every completed shift lands in exactly one month,
nothing is dropped and nothing is counted twice. -/
theorem monthly_conservation (db : DB) (staff : Admin)
    (hc : ∀ s ∈ db.shifts, Cent (s.duration_hours.getD 0)) :
    ((monthlyRowsFor db staff).map (fun r => cellVal (r.getD 2 (Cell.q 0)))).sum =
      ((completedShiftsOf db staff.id).map (fun s => s.duration_hours.getD 0)).sum := by
  have hcomp : ∀ s ∈ completedShiftsOf db staff.id, Cent (s.duration_hours.getD 0) :=
    fun s hs => hc s (List.mem_of_mem_filter hs)
  have hcent : ∀ p ∈ monthlyTotals db staff.id, Cent p.2 :=
    cent_monthFold _ [] (by simp) hcomp
  have h1 : ((monthlyRowsFor db staff).map (fun r => cellVal (r.getD 2 (Cell.q 0)))).sum =
      ((monthlyTotals db staff.id).map fun kv => round2 kv.2).sum := by
    simp only [monthlyRowsFor, List.map_map]
    rfl
  rw [h1, sum_round2_of_cent _ hcent, monthlyTotals, valsSum_monthFold]
  simp [valsSum]

/-- C4 witness: conservation evaluated on the dave snapshot, whose two
completed shifts last 8 and 7.5 hours. -/
theorem monthly_conservation_witness :
    (∀ s ∈ dbD.shifts, Cent (s.duration_hours.getD 0)) ∧
    ((monthlyRowsFor dbD dave).map (fun r => cellVal (r.getD 2 (Cell.q 0)))).sum =
      ((completedShiftsOf dbD dave.id).map (fun s => s.duration_hours.getD 0)).sum := by
  have hc : ∀ s ∈ dbD.shifts, Cent (s.duration_hours.getD 0) := by
    intro s hs
    simp [dbD] at hs
    rcases hs with hs | hs <;> rw [hs]
    · exact ⟨800, by norm_num [daveJan]⟩
    · exact ⟨750, by norm_num [daveFeb]⟩
  exact ⟨hc, monthly_conservation dbD dave hc⟩

/-- Helper: keys present after updAdd are the old keys plus the updated
key. -/
lemma updAdd_keys_mem (m : List (String × ℚ)) (k : String) (v : ℚ) (k' : String) :
    k' ∈ (updAdd m k v).map Prod.fst ↔ k' ∈ m.map Prod.fst ∨ k' = k := by
  induction m with
  | nil => simp [updAdd]
  | cons kv rest ih =>
    obtain ⟨k0, v0⟩ := kv
    by_cases h : k0 = k
    · subst h
      simp [updAdd]
      tauto
    · simp [updAdd, h, ih]
      tauto

/-- Helper: updAdd keeps the keys pairwise distinct. -/
lemma updAdd_keys_nodup (m : List (String × ℚ)) (k : String) (v : ℚ)
    (h : (m.map Prod.fst).Nodup) : ((updAdd m k v).map Prod.fst).Nodup := by
  induction m with
  | nil => simp [updAdd]
  | cons kv rest ih =>
    obtain ⟨k0, v0⟩ := kv
    by_cases hk : k0 = k
    · subst hk
      simpa [updAdd] using h
    · simp only [updAdd, if_neg hk, List.map_cons, List.nodup_cons] at h ⊢
      obtain ⟨h1, h2⟩ := h
      refine ⟨?_, ih h2⟩
      rw [updAdd_keys_mem]
      rintro (hmem | rfl)
      · exact h1 hmem
      · exact hk rfl

/-- Helper: the monthly fold keeps the keys pairwise distinct. -/
lemma monthFold_keys_nodup (l : List Shift) (init : List (String × ℚ))
    (h : (init.map Prod.fst).Nodup) :
    ((l.foldl (fun m s => updAdd m (monthKey s.clock_in) (s.duration_hours.getD 0))
      init).map Prod.fst).Nodup := by
  induction l generalizing init with
  | nil => simpa using h
  | cons s rest ih =>
    simp only [List.foldl_cons]
    exact ih _ (updAdd_keys_nodup init _ _ h)

/-- Helper: the keys after the monthly fold are the initial keys plus the
month keys of the folded shifts. -/
lemma monthFold_keys_mem (l : List Shift) (init : List (String × ℚ)) (k : String) :
    (k ∈ (l.foldl (fun m s => updAdd m (monthKey s.clock_in) (s.duration_hours.getD 0))
        init).map Prod.fst) ↔
      k ∈ init.map Prod.fst ∨ ∃ s ∈ l, monthKey s.clock_in = k := by
  induction l generalizing init with
  | nil => simp
  | cons s rest ih =>
    simp only [List.foldl_cons]
    rw [ih, updAdd_keys_mem]
    simp only [List.mem_cons]
    constructor
    · rintro ((hi | rfl) | ⟨s2, hs2, hk2⟩)
      · exact Or.inl hi
      · exact Or.inr ⟨s, Or.inl rfl, rfl⟩
      · exact Or.inr ⟨s2, Or.inr hs2, hk2⟩
    · rintro (hi | ⟨s2, rfl | hs2, hk2⟩)
      · exact Or.inl (Or.inl hi)
      · exact Or.inl (Or.inr hk2.symm)
      · exact Or.inr ⟨s2, hs2, hk2⟩

/-- C7: the monthly section of one staff member has exactly one row per
distinct month key among their completed shifts: the emitted keys are
pairwise distinct, a key appears exactly when some completed shift of
that staff member carries it (so a month with no completed shift yields
no row), the rows are the rendering of the totals in their stored order,
and they are a deterministic function of the shifts of the snapshot (the
admins table plays no role). -/
theorem monthly_rows_one_per_month (db : DB) (staff : Admin) :
    ((monthlyTotals db staff.id).map Prod.fst).Nodup ∧
    (∀ k, k ∈ (monthlyTotals db staff.id).map Prod.fst ↔
      ∃ s ∈ completedShiftsOf db staff.id, monthKey s.clock_in = k) ∧
    (monthlyRowsFor db staff).length = (monthlyTotals db staff.id).length ∧
    (∀ db2 : DB, db2.shifts = db.shifts →
      monthlyRowsFor db2 staff = monthlyRowsFor db staff) := by
  refine ⟨monthFold_keys_nodup _ [] (by simp), ?_, by simp [monthlyRowsFor], ?_⟩
  · intro k
    rw [monthlyTotals, monthFold_keys_mem]
    simp
  · intro db2 h
    simp [monthlyRowsFor, monthlyTotals, completedShiftsOf, h]

/-- C7 witness: key structure of the monthly rows on the dave snapshot. -/
theorem monthly_rows_one_per_month_witness :
    ((monthlyTotals dbD dave.id).map Prod.fst).Nodup ∧
    "2024-02" ∈ (monthlyTotals dbD dave.id).map Prod.fst := by
  obtain ⟨hnd, hmem, hlen, hdet⟩ := monthly_rows_one_per_month dbD dave
  refine ⟨hnd, (hmem "2024-02").mpr ⟨daveFeb, ?_, by decide⟩⟩
  simp [completedShiftsOf, dbD, daveFeb, dave]

/-- Helper: the accumulating fold of build_excel_report is the plain sum
of the durations. -/
lemma foldl_add_getD (l : List Shift) (a : ℚ) :
    l.foldl (fun acc s => acc + s.duration_hours.getD 0) a =
      a + (l.map fun s => s.duration_hours.getD 0).sum := by
  induction l generalizing a with
  | nil => simp
  | cons s rest ih =>
    simp only [List.foldl_cons, List.map_cons, List.sum_cons]
    rw [ih]
    ring

/-- Value stored under a key in an association list, 0 when the key is
absent. -/
def getVal (m : List (String × ℚ)) (k : String) : ℚ :=
  match m.find? (fun p => p.1 == k) with
  | some p => p.2
  | none => 0

/-- Helper: lookup equation on a cons cell. -/
lemma getVal_cons (k1 : String) (v1 : ℚ) (rest : List (String × ℚ)) (k : String) :
    getVal ((k1, v1) :: rest) k = if k1 = k then v1 else getVal rest k := by
  by_cases h : k1 = k
  · simp [getVal, List.find?, h]
  · have hb : (k1 == k) = false := beq_eq_false_iff_ne.mpr h
    simp [getVal, List.find?, hb, h]

/-- Helper: updAdd adds its value under its key and leaves other keys
unchanged. -/
lemma getVal_updAdd (m : List (String × ℚ)) (k0 : String) (v : ℚ) (k : String) :
    getVal (updAdd m k0 v) k = getVal m k + (if k = k0 then v else 0) := by
  induction m with
  | nil =>
    by_cases h : k0 = k
    · subst h
      simp [updAdd, getVal_cons, getVal]
    · have h2 : ¬ k = k0 := fun he => h he.symm
      simp [updAdd, getVal_cons, getVal, h, h2]
  | cons kv rest ih =>
    obtain ⟨k1, v1⟩ := kv
    by_cases h1 : k1 = k0
    · subst h1
      by_cases h2 : k1 = k
      · subst h2
        simp [updAdd, getVal_cons]
      · have h3 : ¬ k = k1 := fun he => h2 he.symm
        simp [updAdd, getVal_cons, h2, h3]
    · by_cases h2 : k1 = k
      · subst h2
        simp [updAdd, if_neg h1, getVal_cons, h1]
      · simp [updAdd, if_neg h1, getVal_cons, h2, ih]

/-- Helper: after the monthly fold the value under a key is its initial
value plus the durations of the shifts carrying that month key. -/
lemma getVal_monthFold (l : List Shift) (init : List (String × ℚ)) (k : String) :
    getVal (l.foldl (fun m s => updAdd m (monthKey s.clock_in) (s.duration_hours.getD 0))
        init) k =
      getVal init k + ((l.filter fun s => monthKey s.clock_in == k).map
        (fun s => s.duration_hours.getD 0)).sum := by
  induction l generalizing init with
  | nil => simp
  | cons s rest ih =>
    simp only [List.foldl_cons, List.filter_cons]
    rw [ih, getVal_updAdd]
    by_cases h : monthKey s.clock_in = k
    · simp only [h, beq_self_eq_true, if_pos rfl, List.map_cons, List.sum_cons]
      simp [if_pos h.symm]
      ring
    · have h2 : ¬ k = monthKey s.clock_in := fun he => h he.symm
      simp only [if_neg h2]
      have hb : (monthKey s.clock_in == k) = false := by
        simp [h]
      simp [hb]

/-- Helper: with pairwise distinct keys, the stored pair of a member is
what lookup returns. -/
lemma mem_getVal (m : List (String × ℚ)) (h : (m.map Prod.fst).Nodup)
    (p : String × ℚ) (hp : p ∈ m) : getVal m p.1 = p.2 := by
  induction m with
  | nil => cases hp
  | cons q rest ih =>
    obtain ⟨q1, q2⟩ := q
    simp only [List.map_cons, List.nodup_cons] at h
    rcases List.mem_cons.mp hp with rfl | hp2
    · simp [getVal_cons]
    · have hne : ¬ q1 = p.1 := by
        intro he
        exact h.1 (he ▸ List.mem_map_of_mem Prod.fst hp2)
      rw [getVal_cons, if_neg hne]
      exact ih h.2 hp2

/-- C10: every Total Hours value is the 2 decimal rounding of the plain
sum of the contributing durations, applied once at render time: the
weekly cell is the rounded sum over the window selection, a completed
shift with a missing duration contributes 0 to any weekly total, each
monthly row value is the per month sum of durations (rendered rounded),
and the detail sheet emits a nonzero duration without any rounding. -/
theorem totals_rounded_once_at_render (db : DB) (today : ℤ) (staff : Admin) (w : ℕ) :
    (weeklyRowFor db today staff w).getD 3 (Cell.s "") =
      Cell.q (round2 (((staffShiftsInWeek db today staff.id w).map
        (fun s => s.duration_hours.getD 0)).sum)) ∧
    (∀ l1 l2 : List Shift, ∀ sh : Shift, sh.duration_hours = none →
      weeklyTotal ⟨db.admins, l1 ++ sh :: l2⟩ today staff.id w =
        weeklyTotal ⟨db.admins, l1 ++ l2⟩ today staff.id w) ∧
    (∀ kv ∈ monthlyTotals db staff.id,
      kv.2 = (((completedShiftsOf db staff.id).filter
          (fun s => monthKey s.clock_in == kv.1)).map
          (fun s => s.duration_hours.getD 0)).sum ∧
      [Cell.s staff.username, Cell.s kv.1, Cell.q (round2 kv.2)] ∈ monthlyRowsFor db staff) ∧
    (∀ sh : Shift, ∀ d : ℚ, sh.duration_hours = some d → d ≠ 0 →
      (shiftDetailRow db sh).getD 3 (Cell.s "") = Cell.q d) := by
  refine ⟨?_, ?_, ?_, ?_⟩
  · show Cell.q (round2 (weeklyTotal db today staff.id w)) = _
    rw [weeklyTotal, foldl_add_getD, zero_add]
  · intro l1 l2 sh hnone
    rw [weeklyTotal, weeklyTotal, staffShiftsInWeek, staffShiftsInWeek,
      foldl_add_getD, foldl_add_getD]
    simp only [List.filter_append, List.filter_cons]
    by_cases hcond : inWeekWindow staff.id (weekStartOf today w) (weekEndOf today w) sh = true
    · simp [hcond, hnone]
    · simp [hcond]
  · intro kv hkv
    have hnd : ((monthlyTotals db staff.id).map Prod.fst).Nodup :=
      monthFold_keys_nodup _ [] (by simp)
    have hval : getVal (monthlyTotals db staff.id) kv.1 = kv.2 :=
      mem_getVal _ hnd kv hkv
    have hfold := getVal_monthFold (completedShiftsOf db staff.id) [] kv.1
    have hnil : getVal [] kv.1 = 0 := rfl
    rw [hnil, zero_add] at hfold
    refine ⟨?_, ?_⟩
    · rw [← hval]
      exact hfold
    · rw [monthlyRowsFor]
      exact List.mem_map_of_mem _ hkv
  · intro sh d hd hz
    simp [shiftDetailRow, hd, hz]

/-- C10 witness: the rounding and grouping structure evaluated on the
dave snapshot. -/
theorem totals_rounded_once_at_render_witness :
    ("2024-01", (8 : ℚ)) ∈ monthlyTotals dbD 4 ∧
    (8 : ℚ) = (((completedShiftsOf dbD 4).filter
        (fun s => monthKey s.clock_in == "2024-01")).map
        (fun s => s.duration_hours.getD 0)).sum ∧
    (weeklyRowFor dbD 19732 dave 0).getD 3 (Cell.s "") =
      Cell.q (round2 (((staffShiftsInWeek dbD 19732 dave.id 0).map
        (fun s => s.duration_hours.getD 0)).sum)) := by
  obtain ⟨hw, hnone, hmonth, hdet⟩ := totals_rounded_once_at_render dbD 19732 dave 0
  have h1 : monthKey (28411740 : ℤ) = "2024-01" := by decide
  have h2 : monthKey (28454940 : ℤ) = "2024-02" := by decide
  have hm : monthlyTotals dbD 4 = [("2024-01", (8 : ℚ)), ("2024-02", (15/2 : ℚ))] := by
    simp [monthlyTotals, completedShiftsOf, dbD, daveJan, daveFeb, updAdd, h1, h2]
  have hkv : ("2024-01", (8 : ℚ)) ∈ monthlyTotals dbD 4 := by
    rw [hm]
    simp
  exact ⟨hkv, (hmonth ("2024-01", (8 : ℚ)) hkv).1, hw⟩

/-- Helper: the spec derivation of duration_hours only ever produces an
integer number of hundredths, so well formed shifts satisfy the
hypothesis of the conservation theorem. -/
lemma cent_of_WF (s : Shift) (h : s.WF) : Cent (s.duration_hours.getD 0) := by
  rw [Shift.WF] at h
  cases hco : s.clock_out with
  | none =>
    rw [h, specDuration, hco]
    exact Cent.zero
  | some t =>
    rw [h, specDuration, hco]
    exact ⟨roundHalfEven ((((t - s.clock_in : ℤ) : ℚ) / 60) * 100), rfl⟩
